import Mathlib

/-!
Verification of the rqoob sector-filesystem and device-protocol layer.

The Rust sources (`src/device.rs`, `src/fs.rs`, `src/error.rs`, plus the
legacy `src/qoob/mod.rs` module) are shallowly embedded below.  Flash is a
total function from byte addresses to byte values; the in-memory occupancy
map and table of contents of `QoobFs` are total functions on sector
indices (the Rust array/`HashMap` restricted to indices `< SECTOR_COUNT`).
Device interaction is recorded as a trace of logical protocol commands.
-/

namespace Rqoob

/-- `device::SECTOR_SIZE`: the size of a single flash sector. -/
def SECTOR_SIZE : Nat := 64 * 1024

/-- `device::SECTOR_COUNT`: the total number of sectors in flash. -/
def SECTOR_COUNT : Nat := 32

/-- `device::FLASH_SIZE`. -/
def FLASH_SIZE : Nat := SECTOR_COUNT * SECTOR_SIZE

/-- `fs::HEADER_SIZE`: size of a Qoob file header. -/
def HEADER_SIZE : Nat := 256

/-- `device::size_to_sectors`: how many sectors `size` would span. -/
def size_to_sectors (size : Nat) : Nat := (size + SECTOR_SIZE - 1) / SECTOR_SIZE

/-- `fs::FileType` (known file types). -/
inductive FileType where
  | Bios
  | Background
  | Config
  | CheatDb
  | CheatEngine
  | Bin
  | Dol
  | Elf
  | Swiss
  | Unknown (magic : List Nat)
deriving DecidableEq

/-- `FileType::from_magic`, on the 4 magic bytes. -/
def FileType.from_magic (magic : List Nat) : FileType :=
  if magic = [0x28, 0x43, 0x29, 0x20] then .Bios          -- "(C) "
  else if magic = [0x51, 0x50, 0x49, 0x43] then .Background -- "QPIC"
  else if magic = [0x51, 0x43, 0x46, 0x47] then .Config     -- "QCFG"
  else if magic = [0x51, 0x43, 0x48, 0x54] then .CheatDb    -- "QCHT"
  else if magic = [0x51, 0x43, 0x48, 0x45] then .CheatEngine -- "QCHE"
  else if magic = [0x42, 0x49, 0x4E, 0x00] then .Bin        -- "BIN\0"
  else if magic = [0x44, 0x4F, 0x4C, 0x00] then .Dol        -- "DOL\0"
  else if magic = [0x45, 0x4C, 0x46, 0x00] then .Elf        -- "ELF\0"
  else if magic = [0x53, 0x57, 0x49, 0x53] then .Swiss      -- "SWIS"
  else .Unknown magic

/-- Whether a `FileType` is the catch-all `Unknown` variant
(`matches!(.., FileType::Unknown(_))` in the source). -/
def FileType.isUnknown : FileType → Bool
  | .Unknown _ => true
  | _ => false

/-- A header is the first `HEADER_SIZE` bytes of a file, kept as a byte list. -/
abbrev HeaderBytes := List Nat

/-- `Header::type`: the file type parsed from the first 4 bytes. -/
def headerType (h : HeaderBytes) : FileType := FileType.from_magic (h.take 4)

/-- Big-endian 32-bit value from 4 byte values (`u32::from_be_bytes`). -/
def be32 (a b c d : Nat) : Nat := ((a * 256 + b) * 256 + c) * 256 + d

/-- `Header::size`: big-endian u32 at bytes 0xFC..=0xFF. -/
def headerSize (h : HeaderBytes) : Nat :=
  be32 (h.getD 0xFC 0) (h.getD 0xFD 0) (h.getD 0xFE 0) (h.getD 0xFF 0)

/-- `Header::sector_count`: how many sectors the file spans. -/
def headerSectorCount (h : HeaderBytes) : Nat := size_to_sectors (headerSize h)

/-- `u32::to_be_bytes` of `n` (truncated to 32 bits bytewise). -/
def be32Bytes (n : Nat) : List Nat :=
  [n / 2 ^ 24 % 256, n / 2 ^ 16 % 256, n / 2 ^ 8 % 256, n % 256]

/-- `fs::SectorOccupancy`. -/
inductive SectorOccupancy where
  | Empty
  | Unknown
  | Slot (n : Nat)
deriving DecidableEq

/-- `fs::RangeCheck`: the result of a pre-write range check. -/
inductive RangeCheck where
  | Empty
  | Occupied
  | Overlap
  | Overflow
deriving DecidableEq

/-- `error::QoobError` (the `HidError` payload is abstracted away). -/
inductive QoobError where
  | NoDev
  | MultipleDevs
  | PartialTransfer (transferred requested : Nat)
  | BusBusy
  | HidError
  | NoSuchFile (slot : Nat)
  | RangeOccupied
  | TooBig
  | InvalidHeader
  | VerificationError
deriving DecidableEq

deriving instance DecidableEq for Except

/-- Flash contents: byte value at each byte address. -/
abbrev Flash := Nat → Nat

/-- Logical device-protocol commands, as issued by `QoobDevice`.
A `writeCmd`/`readCmd` abstracts one chunked transfer of `len` bytes at
`offset`; `busAcquire`/`busRelease` are the Bus commands sent by
`get_bus`/`release_bus` (with their status-polling loops). -/
inductive DevOp where
  | busAcquire
  | busRelease
  | readCmd (offset len : Nat)
  | writeCmd (offset len : Nat)
  | eraseCmd (sector : Nat)
deriving DecidableEq

/-- The list `[lo, lo+1, ..., hi-1]`, i.e. the Rust range `lo..hi`. -/
def listRange (lo hi : Nat) : List Nat := (List.range (hi - lo)).map (lo + ·)

/-- Effect of `QoobDevice::write` on flash: bytes `[off, off + data.length)`
are replaced by `data`, everything else is untouched. -/
def writeBytes (flash : Flash) (off : Nat) (data : List Nat) : Flash :=
  fun a => if off ≤ a ∧ a < off + data.length then data.getD (a - off) 0 else flash a

/-- Result of `QoobDevice::read` of `n` bytes at offset `off`. -/
def devRead (flash : Flash) (off n : Nat) : List Nat :=
  (List.range n).map fun i => flash (off + i)

/-- Effect of `QoobDevice::erase` on sectors `[lo, hi)`: an erased flash
byte reads back as 0xFF. -/
def eraseRange (flash : Flash) (lo hi : Nat) : Flash :=
  fun a => if lo * SECTOR_SIZE ≤ a ∧ a < hi * SECTOR_SIZE then 0xFF else flash a

/-- The in-memory state of `fs::QoobFs`: the 32-entry sector occupancy map
and the table of contents (`HashMap<usize, Header>`), both as total
functions on sector indices. -/
structure FsState where
  sector_map : Nat → SectorOccupancy
  toc : Nat → Option HeaderBytes

/-- The empty table of contents. -/
def emptyToc : Nat → Option HeaderBytes := fun _ => none

/-- The loop of `QoobFs::check_dest_range`, folding over the sector
indices of the candidate range with the running `status`. -/
def check_loop (map : Nat → SectorOccupancy) (start : Nat) :
    List Nat → RangeCheck → RangeCheck
  | [], status => status
  | i :: rest, status =>
    match map i with
    | .Empty => check_loop map start rest status
    | .Unknown => check_loop map start rest .Occupied
    | .Slot n =>
      if n = start then check_loop map start rest .Occupied
      else .Overlap

/-- `QoobFs::check_dest_range` on the range `lo..hi`. -/
def check_dest_range (fs : FsState) (lo hi : Nat) : RangeCheck :=
  if SECTOR_COUNT ≤ hi then .Overflow
  else check_loop fs.sector_map lo (listRange lo hi) .Empty

/-- `fs::validate_header`: returns the 256-byte header prefix when the
payload is well-formed. -/
def validate_header (data : List Nat) : Option HeaderBytes :=
  if data.length < HEADER_SIZE then none
  else if (headerSize (data.take HEADER_SIZE) = data.length ∨
           headerSize (data.take HEADER_SIZE) = size_to_sectors data.length * SECTOR_SIZE)
          ∧ (headerType (data.take HEADER_SIZE)).isUnknown = false
    then some (data.take HEADER_SIZE) else none

/-- The working copy transmitted by `QoobFs::write`: the payload with its
size field (bytes 0xFC..=0xFF) rewritten to `cnt * SECTOR_SIZE`. -/
def workingCopy (data : List Nat) (cnt : Nat) : List Nat :=
  data.take 0xFC ++ (be32Bytes (cnt * SECTOR_SIZE) ++ data.drop 0x100)

/-- The in-memory update performed by a successful `QoobFs::write`:
every sector of the destination span becomes `Slot slot` and the
rewritten header goes into the table of contents. -/
def commitWrite (fs : FsState) (slot cnt : Nat) (data2 : List Nat) : FsState :=
  { sector_map := fun i =>
      if slot ≤ i ∧ i < slot + cnt then .Slot slot else fs.sector_map i,
    toc := fun n => if n = slot then some (data2.take HEADER_SIZE) else fs.toc n }

/-- Outcome of a filesystem operation: the call result, the new in-memory
state, the new flash contents, and the trace of device commands issued. -/
structure OpResult where
  result : Except QoobError Unit
  fs : FsState
  flash : Flash
  trace : List DevOp

/-- `QoobFs::write`.  `obs` models the device readback used by the
optional verification pass: the verify `read` observes `obs flash2`
(for a faithful device `obs = id`; a corrupting device may differ). -/
def fsWrite (fs : FsState) (flash : Flash) (obs : Flash → Flash) (slot : Nat)
    (data : List Nat) (verify : Bool) : OpResult :=
  match validate_header data with
  | none => ⟨.error .InvalidHeader, fs, flash, []⟩
  | some header =>
    let cnt := headerSectorCount header
    match check_dest_range fs slot (slot + cnt) with
    | .Overflow => ⟨.error .TooBig, fs, flash, []⟩
    | .Occupied => ⟨.error .RangeOccupied, fs, flash, []⟩
    | .Overlap => ⟨.error .RangeOccupied, fs, flash, []⟩
    | .Empty =>
      let data2 := workingCopy data cnt
      let flash2 := writeBytes flash (slot * SECTOR_SIZE) data2
      let wtrace : List DevOp :=
        [.busAcquire, .writeCmd (slot * SECTOR_SIZE) data2.length, .busRelease]
      if verify then
        let verif := devRead (obs flash2) (slot * SECTOR_SIZE) data2.length
        let vtrace := wtrace ++
          [.busAcquire, .readCmd (slot * SECTOR_SIZE) data2.length, .busRelease]
        if verif = data2 then
          ⟨.ok (), commitWrite fs slot cnt data2, flash2, vtrace⟩
        else
          ⟨.error .VerificationError, fs, flash2, vtrace⟩
      else
        ⟨.ok (), commitWrite fs slot cnt data2, flash2, wtrace⟩

/-- `QoobFs::remove`. -/
def fsRemove (fs : FsState) (flash : Flash) (slot : Nat) : OpResult :=
  match fs.toc slot with
  | none => ⟨.error (.NoSuchFile slot), fs, flash, []⟩
  | some info =>
    let cnt := headerSectorCount info
    ⟨.ok (),
     { sector_map := fun i =>
         if slot ≤ i ∧ i < slot + cnt then .Empty else fs.sector_map i,
       toc := fun n => if n = slot then none else fs.toc n },
     eraseRange flash slot (slot + cnt),
     [DevOp.busAcquire] ++ (listRange slot (slot + cnt)).map DevOp.eraseCmd
       ++ [DevOp.busRelease]⟩

/-- `QoobFs::read`: reads `sector_count * SECTOR_SIZE` bytes starting at
the slot's first sector. -/
def fsRead (fs : FsState) (flash : Flash) (slot : Nat) :
    Except QoobError (List Nat) :=
  match fs.toc slot with
  | none => .error (.NoSuchFile slot)
  | some info =>
    .ok (devRead flash (slot * SECTOR_SIZE) (headerSectorCount info * SECTOR_SIZE))

/-- The first `HEADER_SIZE` bytes of a sector, as read by `inspect_sector`. -/
def sectorHeaderBytes (flash : Flash) (sector : Nat) : List Nat :=
  devRead flash (sector * SECTOR_SIZE) HEADER_SIZE

/-- `QoobFs::inspect_sector`. -/
def inspect_sector (flash : Flash) (fs : FsState) (sector : Nat) : FsState :=
  let header := sectorHeaderBytes flash sector
  if header = List.replicate HEADER_SIZE 0xFF then
    { fs with sector_map := fun i =>
        if i = sector then .Empty else fs.sector_map i }
  else
    if (headerType header).isUnknown = false
       ∧ HEADER_SIZE ≤ headerSize header
       ∧ headerSectorCount header < SECTOR_COUNT - sector then
      { sector_map := fun i =>
          if sector ≤ i ∧ i < sector + headerSectorCount header then .Slot sector
          else fs.sector_map i,
        toc := fun n => if n = sector then some header else fs.toc n }
    else
      { fs with sector_map := fun i =>
          if i = sector then .Unknown else fs.sector_map i }

/-- The cursor advance of the `QoobFs::scan` loop.  A `Slot n`
classification advances by `toc[&n].sector_count()`; the `HashMap`
indexing panic is modelled as `none`. -/
def scanAdvance (fs : FsState) (cursor : Nat) : Option Nat :=
  match fs.sector_map cursor with
  | .Slot n => (fs.toc n).map headerSectorCount
  | _ => some 1

/-- The `while cursor < SECTOR_COUNT` loop of `QoobFs::scan`, with
explicit fuel.  Returns the final state and the number of sector
inspections performed; `none` models fuel exhaustion or a panic. -/
def scanLoop (flash : Flash) : Nat → FsState → Nat → Option (FsState × Nat)
  | 0, fs, cursor => if SECTOR_COUNT ≤ cursor then some (fs, 0) else none
  | fuel + 1, fs, cursor =>
    if SECTOR_COUNT ≤ cursor then some (fs, 0)
    else
      let fs2 := inspect_sector flash fs cursor
      match scanAdvance fs2 cursor with
      | none => none
      | some adv =>
        match scanLoop flash fuel fs2 (cursor + adv) with
        | none => none
        | some (fs3, k) => some (fs3, k + 1)

/-- `QoobFs::scan`: clears the table of contents, then runs the loop
from sector 0 (`SECTOR_COUNT` fuel always suffices, see the scan
termination theorem). -/
def fsScan (flash : Flash) (fs : FsState) : Option FsState :=
  (scanLoop flash SECTOR_COUNT { fs with toc := emptyToc } 0).map Prod.fst

/-- `QoobFs::from_device`: the initial map is all `Unknown`, the TOC is
empty, and a full scan runs. -/
def fsInit (flash : Flash) : Option FsState :=
  fsScan flash { sector_map := fun _ => .Unknown, toc := emptyToc }

/-- States reachable through construction, rescan, write and remove
(each operation acting on its in-memory-state component). -/
inductive Reachable : FsState → Prop where
  | init (flash : Flash) (fs' : FsState) : fsInit flash = some fs' → Reachable fs'
  | scan (flash : Flash) (fs fs' : FsState) :
      Reachable fs → fsScan flash fs = some fs' → Reachable fs'
  | write (fs : FsState) (flash : Flash) (obs : Flash → Flash) (slot : Nat)
      (data : List Nat) (verify : Bool) :
      Reachable fs → Reachable (fsWrite fs flash obs slot data verify).fs
  | remove (fs : FsState) (flash : Flash) (slot : Nat) :
      Reachable fs → Reachable (fsRemove fs flash slot).fs

/-- The transport-level identity of an enumerated HID device. -/
structure DeviceInfo where
  busIsUsb : Bool
  vendorId : Nat
  productId : Nat
  manufacturer : Option String
  product : Option String
deriving DecidableEq

/-- The fixed device-selection predicate of `QoobDevice::connect`. -/
def deviceFilter (d : DeviceInfo) : Bool :=
  d.busIsUsb && d.vendorId == 0x03eb && d.productId == 0x0001
    && d.manufacturer == some "QooB Team" && d.product == some "QOOB Chip Pro"

/-- `device::QoobDevice::connect` (the module exported through `lib.rs`):
filters the device list, fails with `NoDev`/`MultipleDevs`, and opens the
single match.  The returned trace records the protocol commands issued
while connecting. -/
def connect (devs : List DeviceInfo) : Except QoobError (DeviceInfo × List DevOp) :=
  match devs.filter deviceFilter with
  | [] => .error .NoDev
  | [d] => .ok (d, [])
  | _ :: _ :: _ => .error .MultipleDevs

/-- `qoob::QoobDevice::connect` from the legacy `src/qoob/mod.rs` module
(not part of the crate's module tree): same selection, but `get_bus()`
runs as part of connecting. -/
def connect_legacy (devs : List DeviceInfo) :
    Except QoobError (DeviceInfo × List DevOp) :=
  match devs.filter deviceFilter with
  | [] => .error .NoDev
  | [d] => .ok (d, [DevOp.busAcquire])
  | _ :: _ :: _ => .error .MultipleDevs

/-! ### Concrete artifacts used by witnesses and counterexamples -/

/-- Fully erased flash: every byte reads 0xFF. -/
def flashBlank : Flash := fun _ => 0xFF

/-- The freshly constructed state of `QoobFs::from_device` before its scan. -/
def fsAllUnknown : FsState := ⟨fun _ => .Unknown, emptyToc⟩

/-- A state whose sectors are all blank. -/
def fsAllEmpty : FsState := ⟨fun _ => .Empty, emptyToc⟩

/-- A 256-byte "QCFG" payload declaring size 256 (its exact length). -/
def qcfgPayload : List Nat :=
  [0x51, 0x43, 0x46, 0x47] ++ List.replicate 248 0 ++ [0, 0, 1, 0]

/-- A 256-byte "QCFG" header declaring size 65536 (on-media form). -/
def qcfgHeader64K : List Nat :=
  [0x51, 0x43, 0x46, 0x47] ++ List.replicate 248 0 ++ [0, 1, 0, 0]

/-- A state holding one 1-sector file at slot 0. -/
def fsOneFile : FsState :=
  ⟨fun i => if i = 0 then .Slot 0 else .Empty,
   fun n => if n = 0 then some qcfgHeader64K else none⟩

/-- A device whose readback flips byte 0 of flash to 0, modelling a
verification mismatch. -/
def obsCorrupt : Flash → Flash := fun f a => if a = 0 then 0 else f a

/-- The unique enumerated device matching `deviceFilter`. -/
def qoobDev : DeviceInfo :=
  ⟨true, 0x03eb, 0x0001, some "QooB Team", some "QOOB Chip Pro"⟩

/-! ### List and flash helper lemmas -/

theorem getD_append_left {l1 l2 : List Nat} {i : Nat} (h : i < l1.length) :
    (l1 ++ l2).getD i 0 = l1.getD i 0 := by
  simp [List.getD_eq_getElem?_getD, List.getElem?_append_left h]

theorem getD_append_right {l1 l2 : List Nat} {i : Nat} (h : l1.length ≤ i) :
    (l1 ++ l2).getD i 0 = l2.getD (i - l1.length) 0 := by
  simp [List.getD_eq_getElem?_getD, List.getElem?_append_right h]

theorem getD_take {l : List Nat} {n i : Nat} (h : i < n) :
    (l.take n).getD i 0 = l.getD i 0 := by
  simp [List.getD_eq_getElem?_getD, List.getElem?_take, h]

theorem devRead_length (flash : Flash) (off n : Nat) :
    (devRead flash off n).length = n := by
  simp [devRead]

theorem devRead_getD (flash : Flash) (off : Nat) {n i : Nat} (h : i < n) :
    (devRead flash off n).getD i 0 = flash (off + i) := by
  simp [devRead, List.getD_eq_getElem?_getD, List.getElem?_map, List.getElem?_range, h]

theorem writeBytes_in (flash : Flash) (off : Nat) (data : List Nat) {i : Nat}
    (h : i < data.length) :
    writeBytes flash off data (off + i) = data.getD i 0 := by
  simp only [writeBytes]
  rw [if_pos ⟨Nat.le_add_right off i, by omega⟩, Nat.add_sub_cancel_left]

theorem writeBytes_out (flash : Flash) (off : Nat) (data : List Nat) {a : Nat}
    (h : a < off ∨ off + data.length ≤ a) :
    writeBytes flash off data a = flash a := by
  simp only [writeBytes]
  rw [if_neg (by omega)]

theorem mem_listRange {lo hi i : Nat} : i ∈ listRange lo hi ↔ lo ≤ i ∧ i < hi := by
  simp only [listRange, List.mem_map, List.mem_range]
  constructor
  · rintro ⟨k, hk, rfl⟩; omega
  · rintro ⟨h1, h2⟩; exact ⟨i - lo, by omega, by omega⟩

theorem length_listRange (lo hi : Nat) : (listRange lo hi).length = hi - lo := by
  simp [listRange]

/-! ### Arithmetic facts about `size_to_sectors` -/

theorem size_to_sectors_pos {s : Nat} (h : 1 ≤ s) : 1 ≤ size_to_sectors s := by
  unfold size_to_sectors SECTOR_SIZE; omega

theorem size_to_sectors_mul (c : Nat) : size_to_sectors (c * SECTOR_SIZE) = c := by
  unfold size_to_sectors SECTOR_SIZE; omega

theorem le_size_to_sectors_mul (x : Nat) : x ≤ size_to_sectors x * SECTOR_SIZE := by
  unfold size_to_sectors SECTOR_SIZE; omega

/-! ### Working-copy (size-field rewrite) lemmas -/

theorem workingCopy_length {data : List Nat} (h : HEADER_SIZE ≤ data.length)
    (cnt : Nat) : (workingCopy data cnt).length = data.length := by
  simp only [workingCopy, List.length_append, List.length_take, List.length_drop,
    be32Bytes, List.length_cons, List.length_nil]
  have := h
  unfold HEADER_SIZE at this
  omega

theorem workingCopy_getD_lo {data : List Nat} (hlen : HEADER_SIZE ≤ data.length)
    (cnt : Nat) {i : Nat} (h : i < 0xFC) :
    (workingCopy data cnt).getD i 0 = data.getD i 0 := by
  unfold HEADER_SIZE at hlen
  have h1 : (data.take 0xFC).length = 0xFC := by
    simp [List.length_take]; omega
  unfold workingCopy
  rw [getD_append_left (by omega), getD_take h]

theorem workingCopy_getD_size {data : List Nat} (hlen : HEADER_SIZE ≤ data.length)
    (cnt : Nat) {j : Nat} (h : j < 4) :
    (workingCopy data cnt).getD (0xFC + j) 0
      = (be32Bytes (cnt * SECTOR_SIZE)).getD j 0 := by
  unfold HEADER_SIZE at hlen
  have h1 : (data.take 0xFC).length = 0xFC := by
    simp [List.length_take]; omega
  have h2 : (be32Bytes (cnt * SECTOR_SIZE)).length = 4 := by simp [be32Bytes]
  unfold workingCopy
  rw [getD_append_right (by omega), h1, Nat.add_sub_cancel_left,
    getD_append_left (by omega)]

theorem workingCopy_getD_hi {data : List Nat} (hlen : HEADER_SIZE ≤ data.length)
    (cnt : Nat) {i : Nat} (h : 0x100 ≤ i) :
    (workingCopy data cnt).getD i 0 = data.getD i 0 := by
  unfold HEADER_SIZE at hlen
  have h1 : (data.take 0xFC).length = 0xFC := by
    simp [List.length_take]; omega
  have h2 : (be32Bytes (cnt * SECTOR_SIZE)).length = 4 := by simp [be32Bytes]
  unfold workingCopy
  rw [getD_append_right (by omega), getD_append_right (by omega)]
  rw [h1, h2]
  have h3 : i - 0xFC - 4 = i - 0x100 := by omega
  rw [h3, List.getD_eq_getElem?_getD, List.getD_eq_getElem?_getD,
    List.getElem?_drop]
  have h4 : 0x100 + (i - 0x100) = i := by omega
  rw [h4]

theorem workingCopy_take4 {data : List Nat} (hlen : HEADER_SIZE ≤ data.length)
    (cnt : Nat) : (workingCopy data cnt).take 4 = data.take 4 := by
  unfold HEADER_SIZE at hlen
  have h1 : (data.take 0xFC).length = 0xFC := by
    simp [List.length_take]; omega
  unfold workingCopy
  rw [List.take_append_eq_append_take]
  rw [h1]
  simp [List.take_take]

theorem take_take_four (l : List Nat) : (l.take HEADER_SIZE).take 4 = l.take 4 := by
  simp [List.take_take, HEADER_SIZE]

/-- The header actually committed by `write` reports size `cnt * SECTOR_SIZE`. -/
theorem headerSize_workingCopy {data : List Nat} (hlen : HEADER_SIZE ≤ data.length)
    {cnt : Nat} (hc : cnt * SECTOR_SIZE < 2 ^ 32) :
    headerSize ((workingCopy data cnt).take HEADER_SIZE) = cnt * SECTOR_SIZE := by
  have h0 : (workingCopy data cnt).getD 0xFC 0 = cnt * SECTOR_SIZE / 16777216 % 256 := by
    simpa [be32Bytes] using workingCopy_getD_size hlen cnt (j := 0) (by omega)
  have h1 : (workingCopy data cnt).getD 0xFD 0 = cnt * SECTOR_SIZE / 65536 % 256 := by
    simpa [be32Bytes] using workingCopy_getD_size hlen cnt (j := 1) (by omega)
  have h2 : (workingCopy data cnt).getD 0xFE 0 = cnt * SECTOR_SIZE / 256 % 256 := by
    simpa [be32Bytes] using workingCopy_getD_size hlen cnt (j := 2) (by omega)
  have h3 : (workingCopy data cnt).getD 0xFF 0 = cnt * SECTOR_SIZE % 256 := by
    simpa [be32Bytes] using workingCopy_getD_size hlen cnt (j := 3) (by omega)
  unfold headerSize
  rw [getD_take (by unfold HEADER_SIZE; omega), getD_take (by unfold HEADER_SIZE; omega),
    getD_take (by unfold HEADER_SIZE; omega), getD_take (by unfold HEADER_SIZE; omega)]
  rw [h0, h1, h2, h3]
  unfold be32
  generalize cnt * SECTOR_SIZE = m at hc ⊢
  omega

theorem headerType_workingCopy {data : List Nat} (hlen : HEADER_SIZE ≤ data.length)
    (cnt : Nat) :
    headerType ((workingCopy data cnt).take HEADER_SIZE) = headerType (data.take HEADER_SIZE) := by
  unfold headerType
  rw [take_take_four, take_take_four, workingCopy_take4 hlen]

/-! ### `validate_header` lemmas -/

theorem validate_some {data : List Nat} {hdr : HeaderBytes}
    (h : validate_header data = some hdr) :
    hdr = data.take HEADER_SIZE ∧ HEADER_SIZE ≤ data.length ∧
    (headerType (data.take HEADER_SIZE)).isUnknown = false ∧
    (headerSize (data.take HEADER_SIZE) = data.length ∨
     headerSize (data.take HEADER_SIZE) = size_to_sectors data.length * SECTOR_SIZE) := by
  unfold validate_header at h
  split at h
  · exact absurd h (by simp)
  · split at h
    · rename_i hlen hcond
      refine ⟨by injection h with h2; exact h2.symm, by omega, hcond.2, hcond.1⟩
    · exact absurd h (by simp)

theorem validate_sector_count {data : List Nat} {hdr : HeaderBytes}
    (h : validate_header data = some hdr) :
    headerSectorCount hdr = size_to_sectors data.length := by
  obtain ⟨rfl, hlen, -, hsz⟩ := validate_some h
  unfold headerSectorCount
  rcases hsz with hsz | hsz
  · rw [hsz]
  · rw [hsz, size_to_sectors_mul]

theorem validate_size_ge {data : List Nat} {hdr : HeaderBytes}
    (h : validate_header data = some hdr) :
    HEADER_SIZE ≤ headerSize hdr := by
  obtain ⟨rfl, hlen, -, hsz⟩ := validate_some h
  rcases hsz with hsz | hsz
  · omega
  · rw [hsz]
    have h1 : 1 ≤ size_to_sectors data.length :=
      size_to_sectors_pos (by unfold HEADER_SIZE at hlen; omega)
    unfold HEADER_SIZE SECTOR_SIZE
    nlinarith

theorem validate_count_pos {data : List Nat} {hdr : HeaderBytes}
    (h : validate_header data = some hdr) : 1 ≤ headerSectorCount hdr := by
  rw [validate_sector_count h]
  have := (validate_some h).2.1
  exact size_to_sectors_pos (by unfold HEADER_SIZE at this; omega)

/-! ### `check_dest_range` lemmas -/

theorem check_loop_occupied_ne_empty (map : Nat → SectorOccupancy) (start : Nat) :
    ∀ l : List Nat, check_loop map start l .Occupied ≠ .Empty := by
  intro l
  induction l with
  | nil => simp [check_loop]
  | cons i rest ih =>
    match hm : map i with
    | .Empty => simp only [check_loop, hm]; exact ih
    | .Unknown => simp only [check_loop, hm]; exact ih
    | .Slot n =>
      simp only [check_loop, hm]
      by_cases hn : n = start
      · rw [if_pos hn]; exact ih
      · rw [if_neg hn]; simp

theorem check_loop_status_ne_overflow (map : Nat → SectorOccupancy) (start : Nat) :
    ∀ (l : List Nat) (status : RangeCheck), status ≠ .Overflow →
      check_loop map start l status ≠ .Overflow := by
  intro l
  induction l with
  | nil => intro status h; simpa [check_loop] using h
  | cons i rest ih =>
    intro status h
    match hm : map i with
    | .Empty => simp only [check_loop, hm]; exact ih status h
    | .Unknown => simp only [check_loop, hm]; exact ih .Occupied (by simp)
    | .Slot n =>
      simp only [check_loop, hm]
      by_cases hn : n = start
      · rw [if_pos hn]; exact ih .Occupied (by simp)
      · rw [if_neg hn]; simp

theorem check_loop_empty_all (map : Nat → SectorOccupancy) (start : Nat) :
    ∀ l : List Nat, check_loop map start l .Empty = .Empty →
      ∀ i ∈ l, map i = .Empty := by
  intro l
  induction l with
  | nil => simp
  | cons j rest ih =>
    intro h i hi
    match hm : map j with
    | .Empty =>
      simp only [check_loop, hm] at h
      rcases List.mem_cons.mp hi with rfl | hi
      · exact hm
      · exact ih h i hi
    | .Unknown =>
      simp only [check_loop, hm] at h
      exact absurd h (check_loop_occupied_ne_empty map start rest)
    | .Slot n =>
      simp only [check_loop, hm] at h
      by_cases hn : n = start
      · rw [if_pos hn] at h
        exact absurd h (check_loop_occupied_ne_empty map start rest)
      · rw [if_neg hn] at h
        exact absurd h (by simp)

theorem check_empty_bounds {fs : FsState} {lo hi : Nat}
    (h : check_dest_range fs lo hi = .Empty) :
    hi < SECTOR_COUNT ∧ ∀ i, lo ≤ i → i < hi → fs.sector_map i = .Empty := by
  unfold check_dest_range at h
  split at h
  · exact absurd h (by simp)
  · rename_i hov
    refine ⟨by omega, fun i h1 h2 => ?_⟩
    exact check_loop_empty_all fs.sector_map lo _ h i (mem_listRange.mpr ⟨h1, h2⟩)

theorem check_loop_all_slot_occupied (map : Nat → SectorOccupancy) (start : Nat) :
    ∀ l : List Nat, (∀ i ∈ l, map i = .Slot start) →
      check_loop map start l .Occupied = .Occupied := by
  intro l
  induction l with
  | nil => simp [check_loop]
  | cons j rest ih =>
    intro h
    simp only [check_loop, h j (List.mem_cons_self j rest), if_true]
    exact ih fun i hi => h i (List.mem_cons_of_mem j hi)

theorem check_loop_all_slot_from_empty (map : Nat → SectorOccupancy) (start : Nat) :
    ∀ l : List Nat, l ≠ [] → (∀ i ∈ l, map i = .Slot start) →
      check_loop map start l .Empty = .Occupied := by
  intro l
  match l with
  | [] => intro h; exact absurd rfl h
  | j :: rest =>
    intro _ h
    simp only [check_loop, h j (List.mem_cons_self j rest), if_true]
    exact check_loop_all_slot_occupied map start rest
      fun i hi => h i (List.mem_cons_of_mem j hi)

/-- Flash holding a valid 1-sector QCFG header at sector 31, blank elsewhere. -/
def flash31 : Flash := fun a =>
  if 31 * SECTOR_SIZE ≤ a ∧ a < 31 * SECTOR_SIZE + HEADER_SIZE
  then qcfgHeader64K.getD (a - 31 * SECTOR_SIZE) 0xFF else 0xFF

set_option maxRecDepth 100000

/-! ## Claim C1: state after a failed write verification -/

/-- C1 (amended): when the verification readback differs from the
transmitted working copy, `write` fails with `VerificationError` and
leaves the occupancy map and table of contents unchanged (the in-memory
commit happens only after verification passes); the flash itself has
already been written. -/
theorem write_verify_mismatch_leaves_state
    (fs : FsState) (flash : Flash) (obs : Flash → Flash) (slot : Nat)
    (data : List Nat) (hdr : HeaderBytes)
    (hv : validate_header data = some hdr)
    (hr : check_dest_range fs slot (slot + headerSectorCount hdr) = .Empty)
    (hm : devRead (obs (writeBytes flash (slot * SECTOR_SIZE)
              (workingCopy data (headerSectorCount hdr))))
            (slot * SECTOR_SIZE) (workingCopy data (headerSectorCount hdr)).length
          ≠ workingCopy data (headerSectorCount hdr)) :
    (fsWrite fs flash obs slot data true).result = .error .VerificationError ∧
    (fsWrite fs flash obs slot data true).fs = fs ∧
    (fsWrite fs flash obs slot data true).flash
      = writeBytes flash (slot * SECTOR_SIZE) (workingCopy data (headerSectorCount hdr)) := by
  simp [fsWrite, hv, hr, hm]

/-- C1 counterexample to the claim as stated: a concrete write whose
readback differs in one byte fails with `VerificationError`, yet the
destination sector is still `Empty` and the TOC still has no entry —
the map/TOC are *not* updated as if the write succeeded. -/
theorem write_verify_claim_counterexample :
    (fsWrite fsAllEmpty flashBlank obsCorrupt 0 qcfgPayload true).result
        = .error .VerificationError ∧
    (fsWrite fsAllEmpty flashBlank obsCorrupt 0 qcfgPayload true).fs.sector_map 0
        = .Empty ∧
    (fsWrite fsAllEmpty flashBlank obsCorrupt 0 qcfgPayload true).fs.toc 0 = none := by
  decide

/-- C1 witness: the amended theorem applied at a concrete mismatching write. -/
theorem write_verify_mismatch_leaves_state_witness :
    validate_header qcfgPayload = some qcfgPayload ∧
    (fsWrite fsAllEmpty flashBlank obsCorrupt 0 qcfgPayload true).fs = fsAllEmpty :=
  ⟨by decide,
   (write_verify_mismatch_leaves_state fsAllEmpty flashBlank obsCorrupt 0 qcfgPayload
      qcfgPayload (by decide) (by decide) (by decide)).2.1⟩

/-! ## Claim C2: overwriting a file in place -/

/-- C2 (amended): a destination range lying entirely over a pre-existing
file starting at the same slot is classified `Occupied` (not `Empty`),
and a write of a payload spanning exactly that file is rejected with
`RangeOccupied`; an in-place rewrite requires an explicit remove first. -/
theorem inplace_overwrite_rejected
    (fs : FsState) (s k : Nat) (hk : 1 ≤ k) (hfit : s + k < SECTOR_COUNT)
    (hspan : ∀ i, s ≤ i → i < s + k → fs.sector_map i = .Slot s) :
    check_dest_range fs s (s + k) = .Occupied ∧
    ∀ (flash : Flash) (obs : Flash → Flash) (data : List Nat) (hdr : HeaderBytes)
      (verify : Bool),
      validate_header data = some hdr → headerSectorCount hdr = k →
      (fsWrite fs flash obs s data verify).result = .error .RangeOccupied := by
  have hch : check_dest_range fs s (s + k) = .Occupied := by
    unfold check_dest_range
    rw [if_neg (by omega)]
    refine check_loop_all_slot_from_empty fs.sector_map s _ ?_ ?_
    · refine List.ne_nil_of_length_pos ?_
      rw [length_listRange]; omega
    · intro i hi
      obtain ⟨h1, h2⟩ := mem_listRange.mp hi
      exact hspan i h1 h2
  refine ⟨hch, fun flash obs data hdr verify hv hcnt => ?_⟩
  simp [fsWrite, hv, hcnt, hch]

/-- C2 counterexample to the claim as stated: a state with a one-sector
file at slot 0; checking the exact span of that file yields `Occupied`,
not `Empty`, and the in-place write is rejected with `RangeOccupied`. -/
theorem inplace_range_claim_counterexample :
    fsOneFile.toc 0 = some qcfgHeader64K ∧
    headerSectorCount qcfgHeader64K = 1 ∧
    check_dest_range fsOneFile 0 1 = .Occupied ∧
    (fsWrite fsOneFile flashBlank id 0 qcfgPayload false).result
      = .error .RangeOccupied := by
  decide

/-- C2 witness: the amended theorem applied to the one-file state. -/
theorem inplace_overwrite_rejected_witness :
    check_dest_range fsOneFile 0 (0 + 1) = .Occupied ∧
    (fsWrite fsOneFile flashBlank id 0 qcfgPayload false).result
      = .error .RangeOccupied := by
  have h := inplace_overwrite_rejected fsOneFile 0 1 (by decide) (by decide)
    (fun i h1 h2 => by
      have hi : i = 0 := by omega
      subst hi; decide)
  exact ⟨h.1, h.2 flashBlank id qcfgPayload qcfgPayload false (by decide) (by decide)⟩

/-! ## Claim C5: the overflow check -/

/-- C5 (amended): `check_dest_range` yields `Overflow` exactly when the
range's end index is `≥ SECTOR_COUNT`; in particular a range ending
exactly at the end of flash (end index = 32) *is* `Overflow`, and `write`
rejects such a destination with `TooBig` before any device command. -/
theorem overflow_iff_end_ge_count :
    (∀ (fs : FsState) (lo hi : Nat),
        check_dest_range fs lo hi = .Overflow ↔ SECTOR_COUNT ≤ hi) ∧
    (∀ (fs : FsState) (flash : Flash) (obs : Flash → Flash) (slot : Nat)
        (data : List Nat) (hdr : HeaderBytes) (verify : Bool),
        validate_header data = some hdr →
        SECTOR_COUNT ≤ slot + headerSectorCount hdr →
        fsWrite fs flash obs slot data verify = ⟨.error .TooBig, fs, flash, []⟩) := by
  constructor
  · intro fs lo hi
    constructor
    · intro h
      by_cases hov : SECTOR_COUNT ≤ hi
      · exact hov
      · unfold check_dest_range at h
        rw [if_neg hov] at h
        exact absurd h (check_loop_status_ne_overflow _ _ _ _ (by simp))
    · intro h
      unfold check_dest_range
      rw [if_pos h]
  · intro fs flash obs slot data hdr verify hv hle
    have hov : check_dest_range fs slot (slot + headerSectorCount hdr) = .Overflow := by
      unfold check_dest_range; rw [if_pos hle]
    simp [fsWrite, hv, hov]

/-- C5 counterexample to the claim as stated: the one-sector range
`31..32` ends exactly at the end of flash, yet it is classified
`Overflow` and the corresponding write fails with `TooBig`. -/
theorem overflow_exact_end_counterexample :
    check_dest_range fsAllEmpty 31 32 = .Overflow ∧
    (fsWrite fsAllEmpty flashBlank id 31 qcfgPayload false).result = .error .TooBig := by
  decide

/-- C5 witness: the amended theorem applied at concrete ranges. -/
theorem overflow_iff_end_ge_count_witness :
    check_dest_range fsAllEmpty 0 40 = .Overflow ∧
    fsWrite fsAllEmpty flashBlank id 31 qcfgPayload false
      = ⟨.error .TooBig, fsAllEmpty, flashBlank, []⟩ :=
  ⟨(overflow_iff_end_ge_count.1 fsAllEmpty 0 40).mpr (by decide),
   overflow_iff_end_ge_count.2 fsAllEmpty flashBlank id 31 qcfgPayload qcfgPayload false
     (by decide) (by decide)⟩

/-! ## Claim C8: invalid payloads are rejected before any device I/O -/

/-- C8: a payload shorter than 256 bytes, with an unrecognized type
magic, or whose declared size is neither the exact length nor the
rounded-up 64 KiB multiple, makes `write` fail with `InvalidHeader`,
leaving state and flash untouched and issuing no device command at all. -/
theorem write_invalid_header_no_io
    (fs : FsState) (flash : Flash) (obs : Flash → Flash) (slot : Nat)
    (data : List Nat) (verify : Bool)
    (h : data.length < HEADER_SIZE ∨
         (FileType.from_magic (data.take 4)).isUnknown = true ∨
         (headerSize (data.take HEADER_SIZE) ≠ data.length ∧
          headerSize (data.take HEADER_SIZE) ≠ size_to_sectors data.length * SECTOR_SIZE)) :
    fsWrite fs flash obs slot data verify = ⟨.error .InvalidHeader, fs, flash, []⟩ := by
  have hv : validate_header data = none := by
    unfold validate_header
    by_cases hlen : data.length < HEADER_SIZE
    · rw [if_pos hlen]
    · rw [if_neg hlen, if_neg]
      rintro ⟨hsz, hk⟩
      rcases h with h | h | h
      · exact absurd h hlen
      · rw [headerType, take_take_four] at hk
        rw [hk] at h
        exact absurd h (by simp)
      · rcases hsz with hsz | hsz
        · exact h.1 hsz
        · exact h.2 hsz
  simp [fsWrite, hv]

/-- C8 witness: a 4-byte payload is rejected with `InvalidHeader` and an
empty device-command trace. -/
theorem write_invalid_header_no_io_witness :
    (List.replicate 4 0).length < HEADER_SIZE ∧
    fsWrite fsAllEmpty flashBlank id 3 (List.replicate 4 0) true
      = ⟨.error .InvalidHeader, fsAllEmpty, flashBlank, []⟩ :=
  ⟨by decide,
   write_invalid_header_no_io fsAllEmpty flashBlank id 3 (List.replicate 4 0) true
     (Or.inl (by decide))⟩

/-! ## Claim C9: remove erases exactly the slot's span -/

/-- C9: with a TOC entry at `slot`, `remove` succeeds, erases exactly the
sectors of the entry's span (tracing one erase command per sector,
bracketed by the bus lock), marks them `Empty`, drops the entry, and
leaves all other sectors, TOC entries and flash bytes unchanged; without
an entry it fails with `NoSuchFile` and changes nothing. -/
theorem remove_spec :
    (∀ (fs : FsState) (flash : Flash) (slot : Nat) (info : HeaderBytes),
      fs.toc slot = some info →
      (fsRemove fs flash slot).result = .ok () ∧
      (fsRemove fs flash slot).trace =
        [DevOp.busAcquire]
          ++ (listRange slot (slot + headerSectorCount info)).map DevOp.eraseCmd
          ++ [DevOp.busRelease] ∧
      (∀ i, slot ≤ i → i < slot + headerSectorCount info →
        (fsRemove fs flash slot).fs.sector_map i = .Empty) ∧
      (∀ i, i < slot ∨ slot + headerSectorCount info ≤ i →
        (fsRemove fs flash slot).fs.sector_map i = fs.sector_map i) ∧
      (fsRemove fs flash slot).fs.toc slot = none ∧
      (∀ n, n ≠ slot → (fsRemove fs flash slot).fs.toc n = fs.toc n) ∧
      (∀ a, slot * SECTOR_SIZE ≤ a → a < (slot + headerSectorCount info) * SECTOR_SIZE →
        (fsRemove fs flash slot).flash a = 0xFF) ∧
      (∀ a, a < slot * SECTOR_SIZE ∨ (slot + headerSectorCount info) * SECTOR_SIZE ≤ a →
        (fsRemove fs flash slot).flash a = flash a))
    ∧ (∀ (fs : FsState) (flash : Flash) (slot : Nat), fs.toc slot = none →
        fsRemove fs flash slot = ⟨.error (.NoSuchFile slot), fs, flash, []⟩) := by
  constructor
  · intro fs flash slot info h
    simp only [fsRemove, h]
    refine ⟨trivial, trivial, ?_, ?_, ?_, ?_, ?_, ?_⟩
    · intro i h1 h2
      exact if_pos ⟨h1, h2⟩
    · intro i hi
      refine if_neg ?_
      rintro ⟨g1, g2⟩
      rcases hi with hi | hi
      · exact absurd g1 (Nat.not_le.mpr hi)
      · exact absurd g2 (Nat.not_lt.mpr hi)
    · exact if_pos trivial
    · intro n hn
      exact if_neg hn
    · intro a h1 h2
      exact if_pos ⟨h1, h2⟩
    · intro a ha
      refine if_neg ?_
      rintro ⟨g1, g2⟩
      rcases ha with ha | ha
      · exact absurd g1 (Nat.not_le.mpr ha)
      · exact absurd g2 (Nat.not_lt.mpr ha)
  · intro fs flash slot h
    simp [fsRemove, h]

/-- C9 witness: removing the concrete one-sector file at slot 0, and a
failing remove on an empty state. -/
theorem remove_spec_witness :
    fsOneFile.toc 0 = some qcfgHeader64K ∧
    (fsRemove fsOneFile flashBlank 0).fs.sector_map 0 = .Empty ∧
    (fsRemove fsOneFile flashBlank 0).fs.toc 0 = none ∧
    fsRemove fsAllEmpty flashBlank 7 = ⟨.error (.NoSuchFile 7), fsAllEmpty, flashBlank, []⟩ :=
  ⟨by decide,
   (remove_spec.1 fsOneFile flashBlank 0 qcfgHeader64K (by decide)).2.2.1 0
     (by decide) (by decide),
   (remove_spec.1 fsOneFile flashBlank 0 qcfgHeader64K (by decide)).2.2.2.2.1,
   remove_spec.2 fsAllEmpty flashBlank 7 (by decide)⟩

/-! ## Claim C6: bus acquisition at connect time -/

/-- C6 (amended): `connect` of the crate's device module, upon finding
exactly one matching device, opens it and issues *no* bus command; the
bus lock is instead acquired and released by each flash operation (e.g.
a successful `remove` brackets its erase commands in
`busAcquire`/`busRelease`).  Only the legacy `qoob` module's `connect`
(not part of the built crate) acquires the bus while connecting, and
its destructor best-effort releases it. -/
theorem connect_issues_no_bus_command
    (devs : List DeviceInfo) (d : DeviceInfo)
    (h : devs.filter deviceFilter = [d]) :
    connect devs = .ok (d, []) ∧
    connect_legacy devs = .ok (d, [DevOp.busAcquire]) ∧
    (∀ (fs : FsState) (flash : Flash) (slot : Nat) (info : HeaderBytes),
      fs.toc slot = some info →
      (fsRemove fs flash slot).trace =
        [DevOp.busAcquire]
          ++ (listRange slot (slot + headerSectorCount info)).map DevOp.eraseCmd
          ++ [DevOp.busRelease]) := by
  refine ⟨?_, ?_, ?_⟩
  · unfold connect
    rw [h]
  · unfold connect_legacy
    rw [h]
  · intro fs flash slot info hinfo
    simp [fsRemove, hinfo]

/-- C6 counterexample to the claim as stated: connecting with exactly one
matching device succeeds with an empty command trace — in particular no
bus-acquire command is issued as part of connecting. -/
theorem connect_bus_claim_counterexample :
    connect [qoobDev] = .ok (qoobDev, []) ∧
    DevOp.busAcquire ∉ ([] : List DevOp) := by
  decide

/-- C6 witness: the amended theorem applied to a one-device list. -/
theorem connect_issues_no_bus_command_witness :
    List.filter deviceFilter [qoobDev] = [qoobDev] ∧
    connect_legacy [qoobDev] = .ok (qoobDev, [DevOp.busAcquire]) :=
  ⟨by decide, (connect_issues_no_bus_command [qoobDev] qoobDev (by decide)).2.1⟩

/-! ## Inspect-sector case analysis -/

theorem SECTOR_COUNT_eq : SECTOR_COUNT = 32 := rfl

theorem SECTOR_SIZE_eq : SECTOR_SIZE = 65536 := rfl

theorem HEADER_SIZE_eq : HEADER_SIZE = 256 := rfl

theorem inspect_sector_blank (flash : Flash) (fs : FsState) (s : Nat)
    (hb : sectorHeaderBytes flash s = List.replicate HEADER_SIZE 0xFF) :
    inspect_sector flash fs s =
      { fs with sector_map := fun i => if i = s then .Empty else fs.sector_map i } := by
  simp only [inspect_sector]
  rw [if_pos hb]

theorem inspect_sector_accept (flash : Flash) (fs : FsState) (s : Nat)
    (hk : (headerType (sectorHeaderBytes flash s)).isUnknown = false)
    (hs : HEADER_SIZE ≤ headerSize (sectorHeaderBytes flash s))
    (hf : headerSectorCount (sectorHeaderBytes flash s) < SECTOR_COUNT - s) :
    inspect_sector flash fs s =
      { sector_map := fun i =>
          if s ≤ i ∧ i < s + headerSectorCount (sectorHeaderBytes flash s) then .Slot s
          else fs.sector_map i,
        toc := fun n => if n = s then some (sectorHeaderBytes flash s) else fs.toc n } := by
  have hnb : sectorHeaderBytes flash s ≠ List.replicate HEADER_SIZE 0xFF := by
    intro he
    rw [headerType, he] at hk
    exact absurd hk (by decide)
  simp only [inspect_sector]
  rw [if_neg hnb, if_pos ⟨hk, hs, hf⟩]

theorem inspect_sector_reject (flash : Flash) (fs : FsState) (s : Nat)
    (hb : sectorHeaderBytes flash s ≠ List.replicate HEADER_SIZE 0xFF)
    (hc : ¬((headerType (sectorHeaderBytes flash s)).isUnknown = false
          ∧ HEADER_SIZE ≤ headerSize (sectorHeaderBytes flash s)
          ∧ headerSectorCount (sectorHeaderBytes flash s) < SECTOR_COUNT - s)) :
    inspect_sector flash fs s =
      { fs with sector_map := fun i => if i = s then .Unknown else fs.sector_map i } := by
  simp only [inspect_sector]
  rw [if_neg hb, if_neg hc]

theorem scanAdvance_of_slot {fs : FsState} {cursor : Nat} {h : HeaderBytes}
    (hm : fs.sector_map cursor = .Slot cursor) (ht : fs.toc cursor = some h) :
    scanAdvance fs cursor = some (headerSectorCount h) := by
  simp [scanAdvance, hm, ht]

theorem scanAdvance_of_nonslot {fs : FsState} {cursor : Nat}
    (hm : fs.sector_map cursor = .Empty ∨ fs.sector_map cursor = .Unknown) :
    scanAdvance fs cursor = some 1 := by
  rcases hm with hm | hm <;> simp [scanAdvance, hm]

/-- Every inspection during a scan yields a defined cursor advance of at
least one sector (accepted headers have size ≥ 256, hence span ≥ 1). -/
theorem scanAdvance_inspect (flash : Flash) (fs : FsState) (cursor : Nat) :
    ∃ adv, scanAdvance (inspect_sector flash fs cursor) cursor = some adv ∧ 1 ≤ adv := by
  by_cases hb : sectorHeaderBytes flash cursor = List.replicate HEADER_SIZE 0xFF
  · refine ⟨1, scanAdvance_of_nonslot (Or.inl ?_), Nat.le_refl 1⟩
    rw [inspect_sector_blank flash fs cursor hb]
    exact if_pos rfl
  · by_cases hc : (headerType (sectorHeaderBytes flash cursor)).isUnknown = false
          ∧ HEADER_SIZE ≤ headerSize (sectorHeaderBytes flash cursor)
          ∧ headerSectorCount (sectorHeaderBytes flash cursor) < SECTOR_COUNT - cursor
    · obtain ⟨hk, hs, hf⟩ := hc
      have hcnt1 : 1 ≤ headerSectorCount (sectorHeaderBytes flash cursor) := by
        refine size_to_sectors_pos ?_
        rw [HEADER_SIZE_eq] at hs; omega
      have hrec := inspect_sector_accept flash fs cursor hk hs hf
      have hm : (inspect_sector flash fs cursor).sector_map cursor = .Slot cursor := by
        rw [hrec]
        exact if_pos ⟨Nat.le_refl cursor, by omega⟩
      have ht : (inspect_sector flash fs cursor).toc cursor
          = some (sectorHeaderBytes flash cursor) := by
        rw [hrec]
        exact if_pos rfl
      exact ⟨_, scanAdvance_of_slot hm ht, hcnt1⟩
    · refine ⟨1, scanAdvance_of_nonslot (Or.inr ?_), Nat.le_refl 1⟩
      rw [inspect_sector_reject flash fs cursor hb hc]
      exact if_pos rfl

/-! ## Claim C4: which headers a scan accepts -/

/-- C4 (amended): a non-blank sector whose first 256 bytes parse as a
header with a recognized type, declared size ≥ 256, and sector span
*strictly less than* the remaining flash from `s` (span < 32 − s; a span
reaching exactly the last sector is rejected as `Unknown`) is accepted:
every sector of the span is classified `Slot s`, the header is recorded
in the TOC, and the scan cursor advances by the full span. -/
theorem inspect_accept_classifies (flash : Flash) (fs : FsState) (s : Nat)
    (hk : (headerType (sectorHeaderBytes flash s)).isUnknown = false)
    (hs : HEADER_SIZE ≤ headerSize (sectorHeaderBytes flash s))
    (hf : headerSectorCount (sectorHeaderBytes flash s) < SECTOR_COUNT - s) :
    (∀ i, s ≤ i → i < s + headerSectorCount (sectorHeaderBytes flash s) →
        (inspect_sector flash fs s).sector_map i = .Slot s) ∧
    (inspect_sector flash fs s).toc s = some (sectorHeaderBytes flash s) ∧
    scanAdvance (inspect_sector flash fs s) s
      = some (headerSectorCount (sectorHeaderBytes flash s)) := by
  have hrec := inspect_sector_accept flash fs s hk hs hf
  have hcnt1 : 1 ≤ headerSectorCount (sectorHeaderBytes flash s) := by
    refine size_to_sectors_pos ?_
    rw [HEADER_SIZE_eq] at hs; omega
  have h1 : ∀ i, s ≤ i → i < s + headerSectorCount (sectorHeaderBytes flash s) →
      (inspect_sector flash fs s).sector_map i = .Slot s := by
    intro i a b
    rw [hrec]
    exact if_pos ⟨a, b⟩
  have h2 : (inspect_sector flash fs s).toc s = some (sectorHeaderBytes flash s) := by
    rw [hrec]
    exact if_pos rfl
  exact ⟨h1, h2, scanAdvance_of_slot (h1 s (Nat.le_refl s) (by omega)) h2⟩

/-- C4 counterexample to the claim as stated: flash with a valid
one-sector QCFG header at sector 31.  Its span (1) fits within the
remaining flash (1 ≤ 32 − 31) and reaches exactly the last sector, yet a
full scan classifies sector 31 as `Unknown` and records no TOC entry. -/
theorem scan_exact_fit_counterexample :
    (headerType (sectorHeaderBytes flash31 31)).isUnknown = false ∧
    HEADER_SIZE ≤ headerSize (sectorHeaderBytes flash31 31) ∧
    headerSectorCount (sectorHeaderBytes flash31 31) ≤ SECTOR_COUNT - 31 ∧
    (fsScan flash31 fsAllUnknown).map (fun st => (st.sector_map 31, (st.toc 31).isSome))
      = some (.Unknown, false) := by
  decide

/-- Flash holding a valid 1-sector QCFG header at sector 30, blank elsewhere. -/
def flash30 : Flash := fun a =>
  if 30 * SECTOR_SIZE ≤ a ∧ a < 30 * SECTOR_SIZE + HEADER_SIZE
  then qcfgHeader64K.getD (a - 30 * SECTOR_SIZE) 0xFF else 0xFF

/-- C4 witness: the amended theorem applied at sector 30, whose span 1 is
strictly below 32 − 30. -/
theorem inspect_accept_classifies_witness :
    (headerType (sectorHeaderBytes flash30 30)).isUnknown = false ∧
    HEADER_SIZE ≤ headerSize (sectorHeaderBytes flash30 30) ∧
    headerSectorCount (sectorHeaderBytes flash30 30) < SECTOR_COUNT - 30 ∧
    (inspect_sector flash30 fsAllUnknown 30).toc 30 = some (sectorHeaderBytes flash30 30) :=
  ⟨by decide, by decide, by decide,
   (inspect_accept_classifies flash30 fsAllUnknown 30 (by decide) (by decide) (by decide)).2.1⟩

/-! ## Claim C10: scan termination -/

theorem scanLoop_total (flash : Flash) :
    ∀ (fuel : Nat) (fs : FsState) (cursor : Nat), SECTOR_COUNT - cursor ≤ fuel →
      ∃ fs2 k, scanLoop flash fuel fs cursor = some (fs2, k) ∧ k ≤ SECTOR_COUNT - cursor := by
  intro fuel
  induction fuel with
  | zero =>
    intro fs cursor h
    refine ⟨fs, 0, ?_, by omega⟩
    unfold scanLoop
    rw [if_pos (by omega)]
  | succ f ih =>
    intro fs cursor h
    by_cases hcur : SECTOR_COUNT ≤ cursor
    · refine ⟨fs, 0, ?_, by omega⟩
      unfold scanLoop
      rw [if_pos hcur]
    · obtain ⟨adv, hadv, hadv1⟩ := scanAdvance_inspect flash fs cursor
      obtain ⟨fs2, k, hrec, hk⟩ := ih (inspect_sector flash fs cursor) (cursor + adv)
        (by omega)
      refine ⟨fs2, k + 1, ?_, by omega⟩
      simp only [scanLoop, hcur, if_false, hadv, hrec]

/-- C10: a scan terminates with at most `SECTOR_COUNT` = 32 sector
inspections: `SECTOR_COUNT` fuel always suffices for the scan loop, the
inspection count is ≤ 32, and `fsScan` always returns a state — every
iteration advances the cursor by at least one sector, because an
accepted header has size ≥ 256 and hence span ≥ 1, and every other
classification advances by exactly 1. -/
theorem scan_terminates (flash : Flash) (fs : FsState) :
    ∃ fs2 k, scanLoop flash SECTOR_COUNT { fs with toc := emptyToc } 0 = some (fs2, k) ∧
      k ≤ SECTOR_COUNT ∧ (fsScan flash fs).isSome = true := by
  obtain ⟨fs2, k, h1, h2⟩ := scanLoop_total flash SECTOR_COUNT { fs with toc := emptyToc } 0
    (by omega)
  refine ⟨fs2, k, h1, by omega, ?_⟩
  simp [fsScan, h1]

/-! ## Claim C7: write/read round trip -/

theorem fsWrite_success_eq (fs : FsState) (flash : Flash) (obs : Flash → Flash)
    (slot : Nat) (data : List Nat) (hdr : HeaderBytes)
    (hv : validate_header data = some hdr)
    (hch : check_dest_range fs slot (slot + headerSectorCount hdr) = .Empty) :
    fsWrite fs flash obs slot data false =
      ⟨.ok (),
       commitWrite fs slot (headerSectorCount hdr) (workingCopy data (headerSectorCount hdr)),
       writeBytes flash (slot * SECTOR_SIZE) (workingCopy data (headerSectorCount hdr)),
       [.busAcquire,
        .writeCmd (slot * SECTOR_SIZE) (workingCopy data (headerSectorCount hdr)).length,
        .busRelease]⟩ := by
  simp [fsWrite, hv, hch]

theorem headerSectorCount_workingCopy {data : List Nat} (hlen : HEADER_SIZE ≤ data.length)
    {cnt : Nat} (hc : cnt * SECTOR_SIZE < 2 ^ 32) :
    headerSectorCount ((workingCopy data cnt).take HEADER_SIZE) = cnt := by
  unfold headerSectorCount
  rw [headerSize_workingCopy hlen hc, size_to_sectors_mul]

/-- C7: writing a valid payload to a destination that passes the range
check and then reading the slot back returns `sector span × 64 KiB`
bytes whose prefix reproduces the payload bytes exactly, except bytes
0xFC–0xFF, which read back as the big-endian encoding of
`span * 65536` — always a multiple of 64 KiB. -/
theorem write_read_roundtrip
    (fs : FsState) (flash : Flash) (obs : Flash → Flash) (slot : Nat)
    (data : List Nat) (hdr : HeaderBytes)
    (hv : validate_header data = some hdr)
    (hr : check_dest_range fs slot (slot + headerSectorCount hdr) = .Empty) :
    (fsWrite fs flash obs slot data false).result = .ok () ∧
    ∃ out, fsRead (fsWrite fs flash obs slot data false).fs
             (fsWrite fs flash obs slot data false).flash slot = .ok out ∧
      out.length = headerSectorCount hdr * SECTOR_SIZE ∧
      (∀ i, i < data.length → i < 0xFC ∨ 0xFF < i → out.getD i 0 = data.getD i 0) ∧
      (∀ j, j < 4 → out.getD (0xFC + j) 0
          = (be32Bytes (headerSectorCount hdr * SECTOR_SIZE)).getD j 0) := by
  have hw := fsWrite_success_eq fs flash obs slot data hdr hv hr
  obtain ⟨-, hlen, -, -⟩ := validate_some hv
  have hb := check_empty_bounds hr
  have hcnt32 : headerSectorCount hdr < 32 := by
    have := hb.1
    rw [SECTOR_COUNT_eq] at this
    omega
  have hc2 : headerSectorCount hdr * SECTOR_SIZE < 2 ^ 32 := by
    rw [SECTOR_SIZE_eq]
    omega
  have hdlen : data.length ≤ headerSectorCount hdr * SECTOR_SIZE := by
    rw [validate_sector_count hv]
    exact le_size_to_sectors_mul data.length
  have hwc_len : (workingCopy data (headerSectorCount hdr)).length = data.length :=
    workingCopy_length hlen (headerSectorCount hdr)
  have hlen256 : 256 ≤ data.length := by rw [HEADER_SIZE_eq] at hlen; exact hlen
  rw [hw]
  refine ⟨rfl, ?_⟩
  have htoc : (commitWrite fs slot (headerSectorCount hdr)
        (workingCopy data (headerSectorCount hdr))).toc slot
      = some ((workingCopy data (headerSectorCount hdr)).take HEADER_SIZE) := by
    simp [commitWrite]
  refine ⟨devRead (writeBytes flash (slot * SECTOR_SIZE)
      (workingCopy data (headerSectorCount hdr)))
      (slot * SECTOR_SIZE) (headerSectorCount hdr * SECTOR_SIZE), ?_, ?_, ?_, ?_⟩
  · simp only [fsRead, htoc, headerSectorCount_workingCopy hlen hc2]
  · exact devRead_length _ _ _
  · intro i hi hio
    rw [devRead_getD _ _ (by omega)]
    rw [writeBytes_in flash (slot * SECTOR_SIZE) _ (by omega)]
    rcases hio with hio | hio
    · exact workingCopy_getD_lo hlen (headerSectorCount hdr) hio
    · exact workingCopy_getD_hi hlen (headerSectorCount hdr) (by omega)
  · intro j hj
    rw [devRead_getD _ _ (by omega)]
    rw [writeBytes_in flash (slot * SECTOR_SIZE) _ (by omega)]
    exact workingCopy_getD_size hlen (headerSectorCount hdr) hj

/-- C7 witness: the round-trip theorem applied to a concrete 256-byte
QCFG payload written to the blank slot 0. -/
theorem write_read_roundtrip_witness :
    validate_header qcfgPayload = some qcfgPayload ∧
    check_dest_range fsAllEmpty 0 (0 + headerSectorCount qcfgPayload) = .Empty ∧
    ((fsWrite fsAllEmpty flashBlank id 0 qcfgPayload false).result = .ok () ∧
     ∃ out, fsRead (fsWrite fsAllEmpty flashBlank id 0 qcfgPayload false).fs
              (fsWrite fsAllEmpty flashBlank id 0 qcfgPayload false).flash 0 = .ok out ∧
       out.length = headerSectorCount qcfgPayload * SECTOR_SIZE ∧
       (∀ i, i < qcfgPayload.length → i < 0xFC ∨ 0xFF < i →
          out.getD i 0 = qcfgPayload.getD i 0) ∧
       (∀ j, j < 4 → out.getD (0xFC + j) 0
           = (be32Bytes (headerSectorCount qcfgPayload * SECTOR_SIZE)).getD j 0)) :=
  ⟨by decide, by decide,
   write_read_roundtrip fsAllEmpty flashBlank id 0 qcfgPayload qcfgPayload
     (by decide) (by decide)⟩

/-! ## Claim C3: the occupancy-map/TOC invariant -/

/-- A validated header rooted at sector `n`: recognized type, size at
least `HEADER_SIZE`, and a span ending strictly before the end of flash
(both `scan` and `write` enforce the strict bound). -/
def ValidHeaderAt (h : HeaderBytes) (n : Nat) : Prop :=
  (headerType h).isUnknown = false ∧ HEADER_SIZE ≤ headerSize h ∧
  n + headerSectorCount h < SECTOR_COUNT

/-- Inductive strengthening of the claimed invariant: every TOC entry is
validated and has its whole span marked with its own slot, and every
`Slot` mark points back into its TOC entry's span. -/
def InvS (fs : FsState) : Prop :=
  (∀ n h, fs.toc n = some h → ValidHeaderAt h n ∧
     ∀ i, n ≤ i → i < n + headerSectorCount h → fs.sector_map i = .Slot n)
  ∧ (∀ i, i < SECTOR_COUNT → ∀ n, fs.sector_map i = .Slot n →
      ∃ h, fs.toc n = some h ∧ n ≤ i ∧ i < n + headerSectorCount h)

theorem ValidHeaderAt.count_pos {h : HeaderBytes} {n : Nat} (hv : ValidHeaderAt h n) :
    1 ≤ headerSectorCount h := by
  refine size_to_sectors_pos ?_
  have hs := hv.2.1
  rw [HEADER_SIZE_eq] at hs
  omega

theorem InvS_commit (fs : FsState) (slot : Nat) (data : List Nat) (hdr : HeaderBytes)
    (hv : validate_header data = some hdr)
    (hch : check_dest_range fs slot (slot + headerSectorCount hdr) = .Empty)
    (hInv : InvS fs) :
    InvS (commitWrite fs slot (headerSectorCount hdr)
           (workingCopy data (headerSectorCount hdr))) := by
  obtain ⟨heq, hlen, htype, -⟩ := validate_some hv
  have hb := check_empty_bounds hch
  have hcnt1 : 1 ≤ headerSectorCount hdr := validate_count_pos hv
  have hlt : slot + headerSectorCount hdr < SECTOR_COUNT := hb.1
  have hc2 : headerSectorCount hdr * SECTOR_SIZE < 2 ^ 32 := by
    rw [SECTOR_COUNT_eq] at hlt
    rw [SECTOR_SIZE_eq]
    omega
  have hhk : (headerType ((workingCopy data (headerSectorCount hdr)).take
      HEADER_SIZE)).isUnknown = false := by
    rw [headerType_workingCopy hlen]
    exact htype
  have hhs : HEADER_SIZE ≤ headerSize ((workingCopy data (headerSectorCount hdr)).take
      HEADER_SIZE) := by
    rw [headerSize_workingCopy hlen hc2, HEADER_SIZE_eq, SECTOR_SIZE_eq]
    omega
  have hhc : headerSectorCount ((workingCopy data (headerSectorCount hdr)).take
      HEADER_SIZE) = headerSectorCount hdr := headerSectorCount_workingCopy hlen hc2
  have hnoslot : fs.toc slot = none := by
    cases hts : fs.toc slot with
    | none => rfl
    | some h0 =>
      obtain ⟨hv0, hmark⟩ := hInv.1 slot h0 hts
      have hp := hv0.count_pos
      have h1 := hmark slot (Nat.le_refl slot) (by omega)
      have h2 := hb.2 slot (Nat.le_refl slot) (by omega)
      rw [h1] at h2
      simp at h2
  constructor
  · intro n h ht
    simp only [commitWrite] at ht
    by_cases hn : n = slot
    · subst hn
      rw [if_pos rfl] at ht
      injection ht with ht'
      subst ht'
      refine ⟨⟨hhk, hhs, by rw [hhc]; exact hlt⟩, fun i a b => ?_⟩
      rw [hhc] at b
      simp only [commitWrite]
      rw [if_pos ⟨a, b⟩]
    · rw [if_neg hn] at ht
      obtain ⟨hv0, hmark⟩ := hInv.1 n h ht
      refine ⟨hv0, fun i a b => ?_⟩
      have hmi := hmark i a b
      have hout : ¬(slot ≤ i ∧ i < slot + headerSectorCount hdr) := by
        rintro ⟨g1, g2⟩
        have he := hb.2 i g1 g2
        rw [hmi] at he
        simp at he
      simp only [commitWrite]
      rw [if_neg hout]
      exact hmi
  · intro i hi n hmap
    simp only [commitWrite] at hmap
    by_cases hin : slot ≤ i ∧ i < slot + headerSectorCount hdr
    · rw [if_pos hin] at hmap
      injection hmap with hmap'
      subst hmap'
      refine ⟨(workingCopy data (headerSectorCount hdr)).take HEADER_SIZE, ?_, hin.1, ?_⟩
      · simp only [commitWrite]
        exact if_pos trivial
      · rw [hhc]
        exact hin.2
    · rw [if_neg hin] at hmap
      obtain ⟨h0, ht0, a, b⟩ := hInv.2 i hi n hmap
      have hns : n ≠ slot := by
        intro he
        rw [he, hnoslot] at ht0
        simp at ht0
      refine ⟨h0, ?_, a, b⟩
      simp only [commitWrite]
      rw [if_neg hns]
      exact ht0

theorem InvS_write (fs : FsState) (flash : Flash) (obs : Flash → Flash) (slot : Nat)
    (data : List Nat) (verify : Bool) (hInv : InvS fs) :
    InvS (fsWrite fs flash obs slot data verify).fs := by
  cases hval : validate_header data with
  | none => simpa [fsWrite, hval] using hInv
  | some hdr =>
    cases hch : check_dest_range fs slot (slot + headerSectorCount hdr) with
    | Overflow => simpa [fsWrite, hval, hch] using hInv
    | Occupied => simpa [fsWrite, hval, hch] using hInv
    | Overlap => simpa [fsWrite, hval, hch] using hInv
    | Empty =>
      have hcommit := InvS_commit fs slot data hdr hval hch hInv
      cases verify with
      | false => simpa [fsWrite, hval, hch] using hcommit
      | true =>
        by_cases hveq : devRead (obs (writeBytes flash (slot * SECTOR_SIZE)
              (workingCopy data (headerSectorCount hdr))))
            (slot * SECTOR_SIZE) (workingCopy data (headerSectorCount hdr)).length
          = workingCopy data (headerSectorCount hdr)
        · simpa [fsWrite, hval, hch, hveq] using hcommit
        · simpa [fsWrite, hval, hch, hveq] using hInv

theorem InvS_remove (fs : FsState) (flash : Flash) (slot : Nat) (hInv : InvS fs) :
    InvS (fsRemove fs flash slot).fs := by
  cases hts : fs.toc slot with
  | none => simpa [fsRemove, hts] using hInv
  | some info =>
    obtain ⟨hvi, hmarki⟩ := hInv.1 slot info hts
    constructor
    · intro n h ht
      simp only [fsRemove, hts] at ht
      have hns : n ≠ slot := by
        intro he
        rw [if_pos he] at ht
        simp at ht
      rw [if_neg hns] at ht
      obtain ⟨hv0, hmark⟩ := hInv.1 n h ht
      refine ⟨hv0, fun i a b => ?_⟩
      have hmi := hmark i a b
      have hout : ¬(slot ≤ i ∧ i < slot + headerSectorCount info) := by
        rintro ⟨g1, g2⟩
        have h2 := hmarki i g1 g2
        rw [hmi] at h2
        injection h2 with h3
        exact hns h3
      simp only [fsRemove, hts]
      rw [if_neg hout]
      exact hmi
    · intro i hi n hmap
      simp only [fsRemove, hts] at hmap
      by_cases hin : slot ≤ i ∧ i < slot + headerSectorCount info
      · rw [if_pos hin] at hmap
        simp at hmap
      · rw [if_neg hin] at hmap
        obtain ⟨h0, ht0, a, b⟩ := hInv.2 i hi n hmap
        have hns : n ≠ slot := by
          intro he
          rw [he, hts] at ht0
          injection ht0 with h3
          rw [← h3] at b
          rw [he] at a b
          exact hin ⟨a, b⟩
        refine ⟨h0, ?_, a, b⟩
        simp only [fsRemove, hts]
        rw [if_neg hns]
        exact ht0

/-- The scan-loop invariant: TOC entries are validated with spans lying
below the cursor and fully marked, and every `Slot` mark below the
cursor points into a TOC entry's span. -/
def ScanInv (fs : FsState) (cursor : Nat) : Prop :=
  (∀ n h, fs.toc n = some h → ValidHeaderAt h n ∧
     n + headerSectorCount h ≤ cursor ∧
     ∀ i, n ≤ i → i < n + headerSectorCount h → fs.sector_map i = .Slot n)
  ∧ (∀ i, i < cursor → ∀ n, fs.sector_map i = .Slot n →
      ∃ h, fs.toc n = some h ∧ n ≤ i ∧ i < n + headerSectorCount h)

theorem InvS_of_ScanInv {fs : FsState} {cursor : Nat} (h32 : SECTOR_COUNT ≤ cursor)
    (h : ScanInv fs cursor) : InvS fs := by
  obtain ⟨h1, h2⟩ := h
  constructor
  · intro n hh ht
    obtain ⟨hv, -, hm⟩ := h1 n hh ht
    exact ⟨hv, hm⟩
  · intro i hi n hmap
    exact h2 i (by omega) n hmap

theorem ScanInv_step_nonslot {fs : FsState} {cursor : Nat} (hinv : ScanInv fs cursor)
    (v : SectorOccupancy) (hv : v = .Empty ∨ v = .Unknown) :
    ScanInv { fs with sector_map := fun i => if i = cursor then v else fs.sector_map i }
      (cursor + 1) := by
  obtain ⟨h1, h2⟩ := hinv
  constructor
  · intro n h ht
    obtain ⟨hvn, hle, hm⟩ := h1 n h ht
    refine ⟨hvn, by omega, fun i a b => ?_⟩
    have hm' := hm i a b
    simp only []
    rw [if_neg (by omega)]
    exact hm'
  · intro i hi n hmap
    simp only [] at hmap
    by_cases hic : i = cursor
    · rw [if_pos hic] at hmap
      rcases hv with rfl | rfl <;> exact absurd hmap (by simp)
    · rw [if_neg hic] at hmap
      exact h2 i (by omega) n hmap

theorem ScanInv_step_accept {fs : FsState} {cursor : Nat} (hinv : ScanInv fs cursor)
    (hdr : HeaderBytes)
    (hk : (headerType hdr).isUnknown = false)
    (hs : HEADER_SIZE ≤ headerSize hdr)
    (hf : headerSectorCount hdr < SECTOR_COUNT - cursor)
    (hcur : cursor < SECTOR_COUNT) :
    ScanInv ⟨fun i => if cursor ≤ i ∧ i < cursor + headerSectorCount hdr then .Slot cursor
             else fs.sector_map i,
            fun n => if n = cursor then some hdr else fs.toc n⟩
      (cursor + headerSectorCount hdr) := by
  obtain ⟨h1, h2⟩ := hinv
  have hcnt1 : 1 ≤ headerSectorCount hdr := by
    refine size_to_sectors_pos ?_
    rw [HEADER_SIZE_eq] at hs
    omega
  constructor
  · intro n h ht
    simp only [] at ht
    by_cases hn : n = cursor
    · subst hn
      rw [if_pos rfl] at ht
      injection ht with ht'
      subst ht'
      refine ⟨⟨hk, hs, ?_⟩, Nat.le_refl _, fun i a b => ?_⟩
      · rw [SECTOR_COUNT_eq] at hf hcur ⊢
        omega
      · simp only []
        rw [if_pos ⟨a, b⟩]
    · rw [if_neg hn] at ht
      obtain ⟨hvn, hle, hm⟩ := h1 n h ht
      refine ⟨hvn, by omega, fun i a b => ?_⟩
      have hm' := hm i a b
      simp only []
      rw [if_neg (by omega)]
      exact hm'
  · intro i hi n hmap
    simp only [] at hmap
    by_cases hin : cursor ≤ i ∧ i < cursor + headerSectorCount hdr
    · rw [if_pos hin] at hmap
      injection hmap with hmap'
      subst hmap'
      refine ⟨hdr, ?_, hin.1, hin.2⟩
      simp only []
      exact if_pos trivial
    · rw [if_neg hin] at hmap
      have hi_lt : i < cursor := by omega
      obtain ⟨h0, ht0, a, b⟩ := h2 i hi_lt n hmap
      have hn : n ≠ cursor := by
        intro he
        subst he
        obtain ⟨hv0, hle0, -⟩ := h1 n h0 ht0
        have hp := hv0.count_pos
        omega
      refine ⟨h0, ?_, a, b⟩
      simp only []
      rw [if_neg hn]
      exact ht0

theorem ScanInv_step (flash : Flash) (fs : FsState) (cursor : Nat)
    (hcur : cursor < SECTOR_COUNT) (hinv : ScanInv fs cursor) {adv : Nat}
    (hadv : scanAdvance (inspect_sector flash fs cursor) cursor = some adv) :
    ScanInv (inspect_sector flash fs cursor) (cursor + adv) := by
  by_cases hb : sectorHeaderBytes flash cursor = List.replicate HEADER_SIZE 0xFF
  · have hrec := inspect_sector_blank flash fs cursor hb
    have hone : scanAdvance (inspect_sector flash fs cursor) cursor = some 1 := by
      refine scanAdvance_of_nonslot (Or.inl ?_)
      rw [hrec]
      exact if_pos rfl
    rw [hone] at hadv
    injection hadv with hadv'
    subst hadv'
    rw [hrec]
    exact ScanInv_step_nonslot ⟨hinv.1, hinv.2⟩ .Empty (Or.inl rfl)
  · by_cases hc : (headerType (sectorHeaderBytes flash cursor)).isUnknown = false
        ∧ HEADER_SIZE ≤ headerSize (sectorHeaderBytes flash cursor)
        ∧ headerSectorCount (sectorHeaderBytes flash cursor) < SECTOR_COUNT - cursor
    · obtain ⟨hk, hs, hf⟩ := hc
      have hrec := inspect_sector_accept flash fs cursor hk hs hf
      have hcnt1 : 1 ≤ headerSectorCount (sectorHeaderBytes flash cursor) := by
        refine size_to_sectors_pos ?_
        rw [HEADER_SIZE_eq] at hs
        omega
      have hm : (inspect_sector flash fs cursor).sector_map cursor = .Slot cursor := by
        rw [hrec]
        exact if_pos ⟨Nat.le_refl _, by omega⟩
      have ht : (inspect_sector flash fs cursor).toc cursor
          = some (sectorHeaderBytes flash cursor) := by
        rw [hrec]
        exact if_pos rfl
      have hsome := scanAdvance_of_slot hm ht
      rw [hsome] at hadv
      injection hadv with hadv'
      subst hadv'
      rw [hrec]
      exact ScanInv_step_accept ⟨hinv.1, hinv.2⟩ (sectorHeaderBytes flash cursor) hk hs hf hcur
    · have hrec := inspect_sector_reject flash fs cursor hb hc
      have hone : scanAdvance (inspect_sector flash fs cursor) cursor = some 1 := by
        refine scanAdvance_of_nonslot (Or.inr ?_)
        rw [hrec]
        exact if_pos rfl
      rw [hone] at hadv
      injection hadv with hadv'
      subst hadv'
      rw [hrec]
      exact ScanInv_step_nonslot ⟨hinv.1, hinv.2⟩ .Unknown (Or.inr rfl)

theorem scanLoop_InvS (flash : Flash) :
    ∀ (fuel : Nat) (fs : FsState) (cursor : Nat) (fs2 : FsState) (k : Nat),
      ScanInv fs cursor → scanLoop flash fuel fs cursor = some (fs2, k) → InvS fs2 := by
  intro fuel
  induction fuel with
  | zero =>
    intro fs cursor fs2 k hinv h
    unfold scanLoop at h
    by_cases hcur : SECTOR_COUNT ≤ cursor
    · rw [if_pos hcur] at h
      injection h with h'
      rw [Prod.mk.injEq] at h'
      obtain ⟨rfl, -⟩ := h'
      exact InvS_of_ScanInv hcur hinv
    · rw [if_neg hcur] at h
      simp at h
  | succ f ih =>
    intro fs cursor fs2 k hinv h
    by_cases hcur : SECTOR_COUNT ≤ cursor
    · unfold scanLoop at h
      rw [if_pos hcur] at h
      injection h with h'
      rw [Prod.mk.injEq] at h'
      obtain ⟨rfl, -⟩ := h'
      exact InvS_of_ScanInv hcur hinv
    · obtain ⟨adv, hadv, -⟩ := scanAdvance_inspect flash fs cursor
      unfold scanLoop at h
      rw [if_neg hcur] at h
      simp only [hadv] at h
      cases hrec : scanLoop flash f (inspect_sector flash fs cursor) (cursor + adv) with
      | none =>
        rw [hrec] at h
        simp at h
      | some p =>
        obtain ⟨fs3, k3⟩ := p
        rw [hrec] at h
        simp only [Option.some.injEq, Prod.mk.injEq] at h
        obtain ⟨rfl, -⟩ := h
        exact ih (inspect_sector flash fs cursor) (cursor + adv) fs3 k3
          (ScanInv_step flash fs cursor (by omega) hinv hadv) hrec

theorem InvS_scan {flash : Flash} {fs fs2 : FsState} (h : fsScan flash fs = some fs2) :
    InvS fs2 := by
  unfold fsScan at h
  cases hs : scanLoop flash SECTOR_COUNT { fs with toc := emptyToc } 0 with
  | none =>
    rw [hs] at h
    simp at h
  | some p =>
    obtain ⟨fs3, k⟩ := p
    rw [hs] at h
    simp only [Option.map_some', Option.some.injEq] at h
    rw [← h]
    refine scanLoop_InvS flash SECTOR_COUNT _ 0 fs3 k ?_ hs
    constructor
    · intro n hh ht
      exact absurd ht (by simp [emptyToc])
    · intro i hi
      exact absurd hi (Nat.not_lt_zero i)

theorem Reachable_InvS {fs : FsState} (h : Reachable fs) : InvS fs := by
  induction h with
  | init flash fs2 hs =>
    unfold fsInit at hs
    exact InvS_scan hs
  | scan flash fs fs2 hre hs ih => exact InvS_scan hs
  | write fs flash obs slot data verify hre ih =>
    exact InvS_write fs flash obs slot data verify ih
  | remove fs flash slot hre ih => exact InvS_remove fs flash slot ih

/-- The invariant exactly as claimed: every `Slot n` mark lies in the
span of a validated TOC entry at `n`, and the TOC holds entries exactly
at the sectors marked `Slot` of themselves. -/
def ClaimInv (fs : FsState) : Prop :=
  (∀ i n, i < SECTOR_COUNT → fs.sector_map i = .Slot n →
    ∃ h, fs.toc n = some h ∧ n ≤ i ∧ i < n + headerSectorCount h ∧
      (headerType h).isUnknown = false ∧ HEADER_SIZE ≤ headerSize h ∧
      n + headerSectorCount h ≤ SECTOR_COUNT)
  ∧ ∀ n, n < SECTOR_COUNT → ((fs.toc n).isSome ↔ fs.sector_map n = .Slot n)

theorem ClaimInv_of_InvS {fs : FsState} (hInv : InvS fs) : ClaimInv fs := by
  obtain ⟨h1, h2⟩ := hInv
  constructor
  · intro i n hi hmap
    obtain ⟨hh, ht, a, b⟩ := h2 i hi n hmap
    obtain ⟨hv, -⟩ := h1 n hh ht
    exact ⟨hh, ht, a, b, hv.1, hv.2.1, Nat.le_of_lt hv.2.2⟩
  · intro n hn
    constructor
    · intro hsome
      obtain ⟨hh, hht⟩ := Option.isSome_iff_exists.mp hsome
      obtain ⟨hv, hm⟩ := h1 n hh hht
      have hp := hv.count_pos
      exact hm n (Nat.le_refl n) (by omega)
    · intro hmap
      obtain ⟨hh, hht, -⟩ := h2 n hn n hmap
      rw [hht]
      rfl

/-- C3: in every state reachable by construction, rescan, write and
remove, each `Slot n` mark at a sector `i` lies within the span of a
validated TOC entry at `n` (known type, size ≥ 256, span fitting within
flash from `n`, i.e. `n ≤ i < n + toc[n].sector_count`), and conversely
the TOC holds an entry at `n` exactly when `sector_map[n] = Slot n`. -/
theorem reachable_toc_map_invariant (fs : FsState) (h : Reachable fs) : ClaimInv fs :=
  ClaimInv_of_InvS (Reachable_InvS h)

/-- C3 witness: the invariant at the state constructed from blank flash. -/
theorem reachable_toc_map_invariant_witness :
    ∃ fs, fsInit flashBlank = some fs ∧ ClaimInv fs := by
  have hs : (fsInit flashBlank).isSome = true := by decide
  obtain ⟨fs, hfs⟩ := Option.isSome_iff_exists.mp hs
  exact ⟨fs, hfs, reachable_toc_map_invariant fs (Reachable.init flashBlank fs hfs)⟩

end Rqoob
